import Mathlib

/-!
Verification of the container new-process detector (`src/main.rs`).

The development shallowly embeds the program:
* line splitting and `str::parse::<i32>` as executable Lean functions;
* the per-unit monitor loop `monitor_procs` as a step function over an
  explicit environment (`Poll` observations of the cgroup file, and
  `RemedEnv` outcomes of the external `docker stop` / `docker start`
  commands), threading the `known_procs` set and recording the emitted
  console events and issued commands;
* the baseline builder `get_whitelist` over per-unit filesystem
  observations.

Machine integers: the program stores pids as `i32`; parsing enforces the
`i32` range, so pids are modelled as `Int` with the range check done at
the parsing boundary, exactly as `str::parse::<i32>` does.
-/

set_option autoImplicit false

namespace Sentinel

/-! ### Line splitting (Rust `str::lines`)

`str::lines` splits at `\n`, strips one trailing `\r` from each line that
was terminated by a newline, and does not yield a final empty line after a
trailing terminator. -/

/-- Accumulator-based core of `str::lines`: `cur` is the current line,
reversed. A line ended by `'\n'` loses a trailing `'\r'`. -/
def linesCore : List Char → List Char → List (List Char)
  | cur, [] => [cur.reverse]
  | cur, c :: rest =>
    if c = '\n' then
      (match cur with
        | '\r' :: cs => cs.reverse
        | _ => cur.reverse) :: linesCore [] rest
    else
      linesCore (c :: cur) rest

/-- Rust `str::lines`, as a list of lines: split at newlines, drop the
final empty line produced by a trailing terminator. -/
def rustLines (s : String) : List String :=
  let ls := linesCore [] s.data
  (if ls.getLast? = some [] then ls.dropLast else ls).map List.asString

/-! ### `str::parse::<i32>` -/

/-- Numeric value of a decimal digit character. -/
def digitVal (c : Char) : Nat := c.toNat - 48

/-- Value of a list of decimal digit characters, most significant first. -/
def digitsToNat (ds : List Char) : Nat :=
  ds.foldl (fun a c => a * 10 + digitVal c) 0

/-- Rust `str::parse::<i32>`: an optional sign followed by at least one
ASCII digit, whose signed value must fit in `i32`; anything else is a
parse error (`none`). -/
def parseI32 (s : String) : Option Int :=
  match s.data with
  | [] => none
  | c :: rest =>
    let signDigits : Bool × List Char :=
      if c = '-' then (true, rest)
      else if c = '+' then (false, rest)
      else (false, c :: rest)
    let ds := signDigits.2
    if ds ≠ [] ∧ ds.all Char.isDigit then
      let v : Int := if signDigits.1 then -(digitsToNat ds : Int) else (digitsToNat ds : Int)
      if -(2 ^ 31) ≤ v ∧ v ≤ 2 ^ 31 - 1 then some v else none
    else none

/-- `content.lines().filter_map(|s| s.parse().ok())`, the shared parsing
expression of `get_whitelist` (line 38) and `monitor_procs` (line 53):
the parsed pids of a `cgroup.procs` read, in file order, unparsable lines
dropped. The `HashSet` the program collects into is `(parseProcs s).toFinset`. -/
def parseProcs (s : String) : List Int :=
  (rustLines s).filterMap parseI32

/-! ### Container-name cleaning (line 58)

`docker_dir.replace("docker-", "").replace(".scope", "")`. Rust
`str::replace(pat, "")` removes every non-overlapping occurrence of
`pat`, scanning left to right. -/

/-- The `"docker-"` pattern. -/
def dockerPat : List Char := ['d', 'o', 'c', 'k', 'e', 'r', '-']

/-- The `".scope"` pattern. -/
def scopePat : List Char := ['.', 's', 'c', 'o', 'p', 'e']

/-- Fuelled core of Rust `str::replace(pat, "")` on character lists: at
each position, if `pat` matches there, the occurrence is removed and
scanning resumes after it; otherwise the character is kept. Fuel
`s.length` is enough for a non-empty pattern, since every step consumes
at least one character. -/
def replChars (pat : List Char) : Nat → List Char → List Char
  | 0, s => s
  | _ + 1, [] => []
  | fuel + 1, c :: rest =>
    if pat.isPrefixOf (c :: rest) then
      replChars pat fuel ((c :: rest).drop pat.length)
    else
      c :: replChars pat fuel rest

/-- Rust `str::replace(pat, "")` on character lists. -/
def replAll (pat : List Char) (s : List Char) : List Char :=
  replChars pat s.length s

/-- `docker_dir.replace("docker-", "").replace(".scope", "")` on
character lists. -/
def cleanedList (s : List Char) : List Char :=
  replAll scopePat (replAll dockerPat s)

/-- The `cleaned_docker_dir` of line 58: the name passed to
`docker stop` / `docker start`. -/
def cleaned (dir : String) : String :=
  (cleanedList dir.data).asString

/-- Modelled from the spec's words (§6 "Unit id derivation"), for
comparison with `cleaned`: strip the fixed `docker-` prefix from the
front and the fixed `.scope` suffix from the end, leaving interior
occurrences intact. -/
def stripPrefixSuffixList (s : List Char) : List Char :=
  let s₁ := if dockerPat.isPrefixOf s then s.drop dockerPat.length else s
  if scopePat.isSuffixOf s₁ then s₁.take (s₁.length - scopePat.length) else s₁

/-- String-level version of `stripPrefixSuffixList`. -/
def stripPrefixSuffix (dir : String) : String :=
  (stripPrefixSuffixList dir.data).asString

/-! ### The monitor loop `monitor_procs` (lines 45-100)

The loop's interaction with the outside world is made explicit:

* each iteration observes the unit's `cgroup.procs` file as a `Poll` —
  absent (`Path::exists()` false, line 51), a failed `read_to_string`
  (whose `?` on line 52 propagates the error out of `monitor_procs`), or
  a successful read.  For a successful read the program collects the
  parsed pids into a `HashSet` and iterates it; the iteration order of
  Rust's `HashSet` is chosen by the runtime (per-instance random hash
  seeds), so the observation carries the enumeration `ord` the set
  iterator produced.  `IsEnumOf` says which enumerations are possible
  for a given file content;
* each `docker stop`/`docker start` invocation pair is summarised by a
  `RemedEnv`: the completion of the two commands (`spawnErr` when
  `output()` itself returns `Err`, which the `?` on lines 68/82
  propagates; `exit ok` for a completed command with success flag `ok`)
  and the two `Utc::now()` readings of lines 64 and 85, in
  milliseconds.  The environment supplies one `RemedEnv` per detection,
  indexed in detection order. -/

/-- Completion of one external `docker` command: the spawn itself may
fail (Rust `output()` returning `Err`), or the command completes with a
success flag (`output.status.success()`). -/
inductive CmdResult where
  | spawnErr : CmdResult
  | exit : Bool → CmdResult
deriving DecidableEq

/-- One remediation's environment: stop completion, start completion
(consulted only when stop succeeded), and the two clock readings
`stop_start` (before issuing stop) and `stop_end` (after start
completed). -/
structure RemedEnv where
  stop : CmdResult
  start : CmdResult
  tStart : Int
  tEnd : Int

/-- A console event emitted by the monitor, in program order. -/
inductive Event where
  | detect : Int → Event
  | stopFailed : Event
  | stopped : Event
  | startFailed : Event
  | started : Event
  | durationMs : Int → Event
deriving DecidableEq

/-- An external command issued to the container control interface. -/
inductive Cmd where
  | stop : String → Cmd
  | start : String → Cmd
deriving DecidableEq

/-- Result of a monitor fragment: emitted events, issued commands, the
resulting `known_procs` set, and whether an error escaped `monitor_procs`
through `?` (terminating the task). -/
structure ScanOut where
  events : List Event
  cmds : List Cmd
  known : Finset Int
  term : Bool
deriving DecidableEq

/-- Lines 56-95: handling one pid of the current set that is not in
`known_procs`: print the detection, run `docker stop`, and on success
`docker start`, report outcomes and on full success the elapsed
milliseconds; afterwards insert the pid into `known_procs`.  A spawn
error (`?` on the `output()` call) escapes `monitor_procs` before the
insert. -/
def handle_detection (name : String) (known : Finset Int) (pid : Int)
    (env : RemedEnv) : ScanOut :=
  match env.stop with
  | CmdResult.spawnErr =>
    ⟨[Event.detect pid], [Cmd.stop name], known, true⟩
  | CmdResult.exit false =>
    ⟨[Event.detect pid, Event.stopFailed], [Cmd.stop name], insert pid known, false⟩
  | CmdResult.exit true =>
    match env.start with
    | CmdResult.spawnErr =>
      ⟨[Event.detect pid, Event.stopped], [Cmd.stop name, Cmd.start name], known, true⟩
    | CmdResult.exit false =>
      ⟨[Event.detect pid, Event.stopped, Event.startFailed],
        [Cmd.stop name, Cmd.start name], insert pid known, false⟩
    | CmdResult.exit true =>
      ⟨[Event.detect pid, Event.stopped, Event.started,
          Event.durationMs (env.tEnd - env.tStart)],
        [Cmd.stop name, Cmd.start name], insert pid known, false⟩

/-- Lines 55-96: the `for proc in &current_procs` loop.  `ord` is the
enumeration the `HashSet` iterator produced, `i` counts detections so
far (indexing into the remediation environment).  Pids already in
`known_procs` are skipped; a spawn error aborts the whole function
mid-loop. -/
def monitor_procs_scan (name : String) (envs : Nat → RemedEnv) :
    List Int → Finset Int → Nat → ScanOut
  | [], known, _ => ⟨[], [], known, false⟩
  | p :: ps, known, i =>
    if p ∈ known then monitor_procs_scan name envs ps known i
    else
      let o := handle_detection name known p (envs i)
      if o.term then o
      else
        let r := monitor_procs_scan name envs ps o.known (i + 1)
        ⟨o.events ++ r.events, o.cmds ++ r.cmds, r.known, r.term⟩

/-- One observation of the unit's `cgroup.procs` resource at the top of
a loop iteration. -/
inductive Poll where
  | absent : Poll
  | readErr : Poll
  | ok : List Int → (Nat → RemedEnv) → Poll

/-- `ord` is a possible `HashSet` enumeration of the pids parsed from
file content `s`: no duplicates, and exactly the parsed set. -/
def IsEnumOf (ord : List Int) (s : String) : Prop :=
  ord.Nodup ∧ ord.toFinset = (parseProcs s).toFinset

instance (ord : List Int) (s : String) : Decidable (IsEnumOf ord s) :=
  inferInstanceAs (Decidable (_ ∧ _))

/-- One iteration of the `loop` body of `monitor_procs` (lines 50-99):
an absent resource skips the iteration; a failing `read_to_string`
escapes through `?` (line 52), terminating the task; a successful read
scans the parsed set. -/
def monitor_procs_step (dir : String) (known : Finset Int) : Poll → ScanOut
  | Poll.absent => ⟨[], [], known, false⟩
  | Poll.readErr => ⟨[], [], known, true⟩
  | Poll.ok ord envs => monitor_procs_scan (cleaned dir) envs ord known 0

/-- A finite prefix of the monitor's infinite loop: run one iteration
per observation, stopping early when an error escaped (the spawned task
logs it and ends, `main` lines 117-121). -/
def monitor_procs_run (dir : String) (known : Finset Int) :
    List Poll → ScanOut
  | [] => ⟨[], [], known, false⟩
  | p :: ps =>
    let o := monitor_procs_step dir known p
    if o.term then o
    else
      let r := monitor_procs_run dir o.known ps
      ⟨o.events ++ r.events, o.cmds ++ r.cmds, r.known, r.term⟩

/-- The pids of the detection events of an event list, in emission
order. -/
def detectedPids (evs : List Event) : List Int :=
  evs.filterMap fun e =>
    match e with
    | Event.detect p => some p
    | _ => none

/-! ### The baseline builder `get_whitelist` (lines 29-43) -/

/-- One unit's filesystem state at baseline time: `cgroup.procs`
missing (`Path::exists()` false, line 36), existing but unreadable
(`read_to_string` fails; its `?` on line 37 propagates), or readable
with the given content. -/
inductive BaselinePoll where
  | missing : BaselinePoll
  | readErr : BaselinePoll
  | content : String → BaselinePoll

/-- Lines 29-43: build the whitelist in `docker_list` order.  A unit
whose resource is missing is skipped; a failing read propagates through
`?`, aborting the whole build (and, via `main` line 108, the sentinel);
a readable unit contributes its parsed pid set. -/
def get_whitelist : List (String × BaselinePoll) →
    Except Unit (List (String × Finset Int))
  | [] => Except.ok []
  | (_, BaselinePoll.missing) :: rest => get_whitelist rest
  | (_, BaselinePoll.readErr) :: _ => Except.error ()
  | (name, BaselinePoll.content s) :: rest =>
    (get_whitelist rest).map fun wl => (name, (parseProcs s).toFinset) :: wl

/-- `isContentPoll u` holds when unit `u`'s baseline resource existed
and was readable. -/
def isContentPoll : String × BaselinePoll → Bool
  | (_, BaselinePoll.content _) => true
  | _ => false

/-! ### Helper lemmas about one detection -/

/-- `handle_detection` either completes (and then the pid was inserted
into `known_procs`) or an error escaped (and then `known_procs` is
untouched). -/
theorem handle_detection_cases (name : String) (known : Finset Int)
    (pid : Int) (env : RemedEnv) :
    ((handle_detection name known pid env).term = false ∧
        (handle_detection name known pid env).known = insert pid known) ∨
      ((handle_detection name known pid env).term = true ∧
        (handle_detection name known pid env).known = known) := by
  obtain ⟨stop, start, t₁, t₂⟩ := env
  cases stop with
  | spawnErr => right; simp [handle_detection]
  | exit ok =>
    cases ok with
    | false => left; simp [handle_detection]
    | true =>
      cases start with
      | spawnErr => right; simp [handle_detection]
      | exit ok₂ => cases ok₂ <;> [left; left] <;> simp [handle_detection]

/-- Every branch of `handle_detection` emits exactly one detection
event, for the handled pid. -/
theorem detectedPids_handle_detection (name : String) (known : Finset Int)
    (pid : Int) (env : RemedEnv) :
    detectedPids (handle_detection name known pid env).events = [pid] := by
  obtain ⟨stop, start, t₁, t₂⟩ := env
  cases stop with
  | spawnErr => simp [handle_detection, detectedPids]
  | exit ok =>
    cases ok with
    | false => simp [handle_detection, detectedPids]
    | true => cases start with
      | spawnErr => simp [handle_detection, detectedPids]
      | exit ok₂ => cases ok₂ <;> simp [handle_detection, detectedPids]

theorem detectedPids_append (a b : List Event) :
    detectedPids (a ++ b) = detectedPids a ++ detectedPids b :=
  List.filterMap_append a b _

/-! ### Unfolding lemmas for the scan and run functions -/

theorem scan_cons_mem {name : String} {envs : Nat → RemedEnv} {p : Int}
    {ps : List Int} {known : Finset Int} {i : Nat} (hp : p ∈ known) :
    monitor_procs_scan name envs (p :: ps) known i =
      monitor_procs_scan name envs ps known i := by
  simp [monitor_procs_scan, hp]

theorem scan_cons_term {name : String} {envs : Nat → RemedEnv} {p : Int}
    {ps : List Int} {known : Finset Int} {i : Nat} (hp : p ∉ known)
    (h : (handle_detection name known p (envs i)).term = true) :
    monitor_procs_scan name envs (p :: ps) known i =
      handle_detection name known p (envs i) := by
  simp [monitor_procs_scan, hp, h]

theorem scan_cons_go {name : String} {envs : Nat → RemedEnv} {p : Int}
    {ps : List Int} {known : Finset Int} {i : Nat} (hp : p ∉ known)
    (h : (handle_detection name known p (envs i)).term = false) :
    monitor_procs_scan name envs (p :: ps) known i =
      ⟨(handle_detection name known p (envs i)).events ++
          (monitor_procs_scan name envs ps
            (handle_detection name known p (envs i)).known (i + 1)).events,
        (handle_detection name known p (envs i)).cmds ++
          (monitor_procs_scan name envs ps
            (handle_detection name known p (envs i)).known (i + 1)).cmds,
        (monitor_procs_scan name envs ps
          (handle_detection name known p (envs i)).known (i + 1)).known,
        (monitor_procs_scan name envs ps
          (handle_detection name known p (envs i)).known (i + 1)).term⟩ := by
  simp [monitor_procs_scan, hp, h]

/-- Main invariant of one scan of the current pid set: `known_procs`
only grows; each pid is detected at most once; an already-known pid is
never detected; and a detected pid ends up in `known_procs` unless the
scan was aborted by an escaping error. -/
theorem monitor_procs_scan_spec (name : String) (envs : Nat → RemedEnv)
    (pid : Int) :
    ∀ (ord : List Int) (known : Finset Int) (i : Nat),
      known ⊆ (monitor_procs_scan name envs ord known i).known ∧
      (detectedPids (monitor_procs_scan name envs ord known i).events).count pid ≤ 1 ∧
      (pid ∈ known →
        (detectedPids (monitor_procs_scan name envs ord known i).events).count pid = 0) ∧
      (1 ≤ (detectedPids (monitor_procs_scan name envs ord known i).events).count pid →
        pid ∈ (monitor_procs_scan name envs ord known i).known ∨
          (monitor_procs_scan name envs ord known i).term = true) := by
  intro ord
  induction ord with
  | nil => intro known i; simp [monitor_procs_scan, detectedPids]
  | cons p ps ih =>
    intro known i
    by_cases hp : p ∈ known
    · rw [scan_cons_mem hp]; exact ih known i
    · have hdp := detectedPids_handle_detection name known p (envs i)
      rcases handle_detection_cases name known p (envs i) with
        ⟨hterm, hknown⟩ | ⟨hterm, hknown⟩
      · rw [scan_cons_go hp hterm, hknown]
        obtain ⟨ih₁, ih₂, ih₃, ih₄⟩ := ih (insert p known) (i + 1)
        simp only [detectedPids_append, hdp, List.count_append]
        by_cases hpid : pid = p
        · subst hpid
          have h0 : (detectedPids (monitor_procs_scan name envs ps
              (insert pid known) (i + 1)).events).count pid = 0 :=
            ih₃ (Finset.mem_insert_self pid known)
          refine ⟨(Finset.subset_insert pid known).trans ih₁, ?_, ?_, ?_⟩
          · simp [h0]
          · intro hmem; exact absurd hmem hp
          · intro _
            exact Or.inl (ih₁ (Finset.mem_insert_self pid known))
        · have hc : ([p].count pid) = 0 := by
            simp [List.count_singleton]
            exact fun h => absurd h.symm hpid
          refine ⟨(Finset.subset_insert p known).trans ih₁, ?_, ?_, ?_⟩
          · simpa [hc] using ih₂
          · intro hmem
            have : pid ∈ insert p known := Finset.mem_insert_of_mem hmem
            simp [hc, ih₃ this]
          · intro h1
            have : 1 ≤ (detectedPids (monitor_procs_scan name envs ps
                (insert p known) (i + 1)).events).count pid := by
              simpa [hc] using h1
            exact ih₄ this
      · rw [scan_cons_term hp hterm, hknown, hdp]
        refine ⟨le_refl _, ?_, ?_, ?_⟩
        · by_cases hpid : pid = p <;> simp [List.count_singleton, hpid]
        · intro hmem
          have hpid : pid ≠ p := fun h => hp (h ▸ hmem)
          simp [List.count_singleton]
          exact fun h => absurd h.symm hpid
        · intro _; exact Or.inr hterm

theorem run_cons_term {dir : String} {known : Finset Int} {p : Poll}
    {ps : List Poll} (h : (monitor_procs_step dir known p).term = true) :
    monitor_procs_run dir known (p :: ps) = monitor_procs_step dir known p := by
  simp [monitor_procs_run, h]

theorem run_cons_go {dir : String} {known : Finset Int} {p : Poll}
    {ps : List Poll} (h : (monitor_procs_step dir known p).term = false) :
    monitor_procs_run dir known (p :: ps) =
      ⟨(monitor_procs_step dir known p).events ++
          (monitor_procs_run dir (monitor_procs_step dir known p).known ps).events,
        (monitor_procs_step dir known p).cmds ++
          (monitor_procs_run dir (monitor_procs_step dir known p).known ps).cmds,
        (monitor_procs_run dir (monitor_procs_step dir known p).known ps).known,
        (monitor_procs_run dir (monitor_procs_step dir known p).known ps).term⟩ := by
  simp [monitor_procs_run, h]

/-- The scan invariant, lifted to one loop iteration. -/
theorem monitor_procs_step_spec (dir : String) (pid : Int)
    (known : Finset Int) (poll : Poll) :
    known ⊆ (monitor_procs_step dir known poll).known ∧
    (detectedPids (monitor_procs_step dir known poll).events).count pid ≤ 1 ∧
    (pid ∈ known →
      (detectedPids (monitor_procs_step dir known poll).events).count pid = 0) ∧
    (1 ≤ (detectedPids (monitor_procs_step dir known poll).events).count pid →
      pid ∈ (monitor_procs_step dir known poll).known ∨
        (monitor_procs_step dir known poll).term = true) := by
  cases poll with
  | absent => simp [monitor_procs_step, detectedPids]
  | readErr => simp [monitor_procs_step, detectedPids]
  | ok ord envs => exact monitor_procs_scan_spec (cleaned dir) envs pid ord known 0

/-- The invariant over any finite run of the monitor loop:
`known_procs` only grows, each pid is detected at most once over the
whole run, and a pid known at the start is never detected. -/
theorem monitor_procs_run_spec (dir : String) (pid : Int) :
    ∀ (polls : List Poll) (known : Finset Int),
      known ⊆ (monitor_procs_run dir known polls).known ∧
      (detectedPids (monitor_procs_run dir known polls).events).count pid ≤ 1 ∧
      (pid ∈ known →
        (detectedPids (monitor_procs_run dir known polls).events).count pid = 0) := by
  intro polls
  induction polls with
  | nil => intro known; simp [monitor_procs_run, detectedPids]
  | cons p ps ih =>
    intro known
    obtain ⟨hs₁, hs₂, hs₃, hs₄⟩ := monitor_procs_step_spec dir pid known p
    by_cases hterm : (monitor_procs_step dir known p).term = true
    · rw [run_cons_term hterm]
      exact ⟨hs₁, hs₂, hs₃⟩
    · have hterm' : (monitor_procs_step dir known p).term = false := by
        simpa using hterm
      rw [run_cons_go hterm']
      obtain ⟨ihs₁, ihs₂, ihs₃⟩ := ih (monitor_procs_step dir known p).known
      simp only [detectedPids_append, List.count_append]
      refine ⟨hs₁.trans ihs₁, ?_, ?_⟩
      · by_cases h1 : 1 ≤ (detectedPids (monitor_procs_step dir known p).events).count pid
        · rcases hs₄ h1 with hmem | habs
          · simpa [ihs₃ hmem] using hs₂
          · exact absurd habs hterm
        · have h0 : (detectedPids (monitor_procs_step dir known p).events).count pid = 0 := by
            omega
          simpa [h0] using ihs₂
      · intro hmem
        simp [hs₃ hmem, ihs₃ (hs₁ hmem)]

/-! ### Claim theorems -/

/-- C1: per unit and pid, at most one `DetectionEvent` is emitted per
monitor lifetime: over any finite run of `monitor_procs`, a pid is
detected at most once, and a detected pid is inserted into
`known_procs` whatever the remediation outcome (stop failed, or stop
succeeded and start failed or succeeded), so later polls never
re-report it. -/
theorem detection_emitted_at_most_once (dir : String) (known : Finset Int)
    (polls : List Poll) (pid : Int) :
    (detectedPids (monitor_procs_run dir known polls).events).count pid ≤ 1 ∧
    (∀ (name : String) (k : Finset Int) (p : Int) (st : CmdResult) (t₁ t₂ : Int),
      (handle_detection name k p ⟨CmdResult.exit false, st, t₁, t₂⟩).known = insert p k) ∧
    (∀ (name : String) (k : Finset Int) (p : Int) (ok : Bool) (t₁ t₂ : Int),
      (handle_detection name k p
        ⟨CmdResult.exit true, CmdResult.exit ok, t₁, t₂⟩).known = insert p k) := by
  refine ⟨(monitor_procs_run_spec dir pid polls known).2.1, ?_, ?_⟩
  · intro name k p st t₁ t₂; rfl
  · intro name k p ok t₁ t₂; cases ok <;> rfl

/-- C2: `known_procs` is monotonically non-decreasing under `⊆`: one
iteration, and any finite run of iterations, only ever add pids. -/
theorem known_set_monotone (dir : String) (known : Finset Int)
    (poll : Poll) (polls : List Poll) :
    known ⊆ (monitor_procs_step dir known poll).known ∧
    known ⊆ (monitor_procs_run dir known polls).known :=
  ⟨(monitor_procs_step_spec dir 0 known poll).1,
    (monitor_procs_run_spec dir 0 polls known).1⟩

/-- C3 counterexample: a baseline read failure is *not* non-fatal — a
unit whose `cgroup.procs` exists but cannot be read makes the whole
whitelist build return an error (the `?` of line 37), so the remaining
units get no baseline either; the same remaining unit alone would have
produced a baseline entry. -/
theorem baseline_read_error_aborts_whitelist :
    get_whitelist [("docker-a.scope", BaselinePoll.readErr),
        ("docker-b.scope", BaselinePoll.content "1")] = Except.error () ∧
    get_whitelist [("docker-b.scope", BaselinePoll.content "1")] =
      Except.ok [("docker-b.scope", ({1} : Finset Int))] := by
  constructor
  · rfl
  · have h : (parseProcs "1").toFinset = ({1} : Finset Int) := by decide
    simp [get_whitelist, h, Except.map]

/-- C3 amended: a unit whose baseline resource is *missing* is skipped
(no baseline entry, not monitored) and building continues with the
remaining units; but a unit whose resource exists and fails to read
aborts the entire baseline build; when the build succeeds, the units
monitored are exactly those whose resource was present and readable, in
discovery order. -/
theorem baseline_missing_skipped_read_error_fatal
    (units : List (String × BaselinePoll)) (name : String)
    (rest : List (String × BaselinePoll)) :
    get_whitelist ((name, BaselinePoll.missing) :: rest) = get_whitelist rest ∧
    ((name, BaselinePoll.readErr) ∈ units → get_whitelist units = Except.error ()) ∧
    (∀ wl, get_whitelist units = Except.ok wl →
      wl.map Prod.fst = (units.filter isContentPoll).map Prod.fst) := by
  refine ⟨rfl, ?_, ?_⟩
  · intro hmem
    induction units with
    | nil => cases hmem
    | cons u us ih =>
      obtain ⟨n, bp⟩ := u
      rcases List.mem_cons.mp hmem with heq | hmem'
      · cases heq
        rfl
      · cases bp with
        | missing => exact ih hmem'
        | readErr => rfl
        | content s => simp [get_whitelist, ih hmem', Except.map]
  · intro wl hok
    induction units generalizing wl with
    | nil =>
      cases hok
      rfl
    | cons u us ih =>
      obtain ⟨n, bp⟩ := u
      cases bp with
      | missing => simpa [get_whitelist, isContentPoll] using ih wl hok
      | readErr => cases hok
      | content s =>
        rw [show get_whitelist ((n, BaselinePoll.content s) :: us) =
            (get_whitelist us).map
              (fun wl => (n, (parseProcs s).toFinset) :: wl) from rfl] at hok
        cases hus : get_whitelist us with
        | error e => rw [hus] at hok; cases hok
        | ok wl' =>
          rw [hus] at hok
          cases hok
          simp [isContentPoll, ih wl' hus]

/-- C4 failing input: a live read that fails while the path exists is
*fatal to the monitor task* — the error escapes `monitor_procs` through
the `?` of line 52, and no later poll of that unit is processed (the new
pid 5 of the second poll is never detected). -/
theorem live_read_error_terminates_monitor :
    monitor_procs_step "docker-a.scope" ∅ Poll.readErr =
      ⟨[], [], ∅, true⟩ ∧
    monitor_procs_run "docker-a.scope" ∅
        [Poll.readErr,
          Poll.ok [5] (fun _ => ⟨CmdResult.exit true, CmdResult.exit true, 0, 0⟩)] =
      ⟨[], [], ∅, true⟩ :=
  ⟨rfl, rfl⟩

/-- C5 counterexample: a failure of the stop invocation itself (Rust
`output()` returning `Err`) is not reported as an outcome value — no
stop-failure outcome is emitted, the pid is not added to `known_procs`,
and the error escapes `monitor_procs` (`term = true`), reaching the
spawned task's handler in `main`; a later well-behaved poll is never
processed. -/
theorem stop_spawn_error_escapes_remediation :
    handle_detection "a" ∅ 5 ⟨CmdResult.spawnErr, CmdResult.exit true, 0, 0⟩ =
      ⟨[Event.detect 5], [Cmd.stop "a"], ∅, true⟩ ∧
    monitor_procs_run "docker-a.scope" ∅
        [Poll.ok [5] (fun _ => ⟨CmdResult.spawnErr, CmdResult.exit true, 0, 0⟩),
          Poll.ok [6] (fun _ => ⟨CmdResult.exit true, CmdResult.exit true, 0, 0⟩)] =
      ⟨[Event.detect 5], [Cmd.stop "a"], ∅, true⟩ :=
  ⟨rfl, rfl⟩

/-- C5 amended: every stop/start failure *signalled by a non-success
completion status* is reported as an outcome value — exactly one of
stop-failed, stop-succeeded-and-start-failed, or both-succeeded with a
duration — and does not escape `monitor_procs` (`term = false`); only a
failure of the command invocation itself (spawn error) escapes as an
error. -/
theorem status_failures_reported_as_outcomes (name : String)
    (k : Finset Int) (p : Int) (st : CmdResult) (t₁ t₂ : Int) :
    handle_detection name k p ⟨CmdResult.exit false, st, t₁, t₂⟩ =
      ⟨[Event.detect p, Event.stopFailed], [Cmd.stop name], insert p k, false⟩ ∧
    handle_detection name k p ⟨CmdResult.exit true, CmdResult.exit false, t₁, t₂⟩ =
      ⟨[Event.detect p, Event.stopped, Event.startFailed],
        [Cmd.stop name, Cmd.start name], insert p k, false⟩ ∧
    handle_detection name k p ⟨CmdResult.exit true, CmdResult.exit true, t₁, t₂⟩ =
      ⟨[Event.detect p, Event.stopped, Event.started, Event.durationMs (t₂ - t₁)],
        [Cmd.stop name, Cmd.start name], insert p k, false⟩ :=
  ⟨rfl, rfl, rfl⟩

/-- C6: if stop fails only the stop command was issued and no duration
event is emitted; if stop succeeds and start fails, both commands were
issued but no duration event is emitted; if both succeed, the emitted
duration is exactly the after-start timestamp `t₂` minus the
before-stop timestamp `t₁`. -/
theorem remediation_duration_semantics (name : String) (k : Finset Int)
    (p : Int) (st : CmdResult) (t₁ t₂ : Int) :
    (handle_detection name k p ⟨CmdResult.exit false, st, t₁, t₂⟩).cmds =
      [Cmd.stop name] ∧
    (handle_detection name k p ⟨CmdResult.exit false, st, t₁, t₂⟩).events =
      [Event.detect p, Event.stopFailed] ∧
    (handle_detection name k p
        ⟨CmdResult.exit true, CmdResult.exit false, t₁, t₂⟩).cmds =
      [Cmd.stop name, Cmd.start name] ∧
    (handle_detection name k p
        ⟨CmdResult.exit true, CmdResult.exit false, t₁, t₂⟩).events =
      [Event.detect p, Event.stopped, Event.startFailed] ∧
    (handle_detection name k p
        ⟨CmdResult.exit true, CmdResult.exit true, t₁, t₂⟩).events =
      [Event.detect p, Event.stopped, Event.started, Event.durationMs (t₂ - t₁)] :=
  ⟨rfl, rfl, rfl, rfl, rfl⟩

/-- C7: an iteration that finds the live-process resource absent emits
no event, issues no command, leaves `known_procs` unchanged and does not
terminate; the run over the remaining polls is unaffected. -/
theorem absent_resource_idles (dir : String) (known : Finset Int)
    (ps : List Poll) :
    monitor_procs_step dir known Poll.absent = ⟨[], [], known, false⟩ ∧
    monitor_procs_run dir known (Poll.absent :: ps) =
      monitor_procs_run dir known ps := by
  refine ⟨rfl, ?_⟩
  have h : (monitor_procs_step dir known Poll.absent).term = false := rfl
  rw [run_cons_go h]
  simp [monitor_procs_step]

/-- C10: pid lines are parsed as signed 32-bit integers in both reads:
`2147483648` overflows `i32` and is silently dropped, while `-5` parses
and is accepted into the process set — in the shared parsing function,
in the baseline builder, and in a live-read enumeration. -/
theorem pid_lines_parse_as_i32 :
    parseI32 "2147483648" = none ∧
    parseI32 "-5" = some (-5) ∧
    parseProcs "2147483648\n-5" = [-5] ∧
    (-5 : Int) ∈ (parseProcs "2147483648\n-5").toFinset ∧
    get_whitelist [("docker-b.scope", BaselinePoll.content "2147483648\n-5")] =
      Except.ok [("docker-b.scope", ({-5} : Finset Int))] ∧
    IsEnumOf [-5] "2147483648\n-5" := by
  refine ⟨by decide, by decide, by decide, by decide, ?_, by decide⟩
  have h : (parseProcs "2147483648\n-5").toFinset = ({-5} : Finset Int) := by decide
  simp [get_whitelist, h, Except.map]

/-! ### Lemmas about `str::replace(pat, "")` -/

theorem replChars_nil (pat : List Char) (fuel : Nat) :
    replChars pat fuel [] = [] := by
  cases fuel <;> rfl

/-- If some character of the pattern never occurs in the string, the
replacement leaves the string unchanged (for any fuel). -/
theorem replChars_of_not_mem {pat : List Char} {c : Char} (hc : c ∈ pat) :
    ∀ (fuel : Nat) (s : List Char), c ∉ s → replChars pat fuel s = s := by
  intro fuel
  induction fuel with
  | zero => intro s _; rfl
  | succ f ih =>
    intro s hs
    cases s with
    | nil => rfl
    | cons a rest =>
      have hnp : pat.isPrefixOf (a :: rest) = false := by
        rw [Bool.eq_false_iff]
        intro h
        exact hs ((List.isPrefixOf_iff_prefix.mp h).subset hc)
      have hrest : c ∉ rest := fun h => hs (List.mem_cons_of_mem a h)
      simp only [replChars, hnp, Bool.false_eq_true, if_false, ih rest hrest]

/-- A match at the very front of the string is removed. -/
theorem replChars_head_match (hd : Char) (tl rest : List Char) (fuel : Nat) :
    replChars (hd :: tl) (fuel + 1) ((hd :: tl) ++ rest) =
      replChars (hd :: tl) fuel rest := by
  have hpre : (hd :: tl).isPrefixOf ((hd :: tl) ++ rest) = true :=
    List.isPrefixOf_iff_prefix.mpr (List.prefix_append _ _)
  have hdrop : ((hd :: tl) ++ rest).drop (hd :: tl).length = rest :=
    List.drop_left _ _
  rw [show (hd :: tl) ++ rest = hd :: (tl ++ rest) from rfl] at hpre hdrop
  simp only [replChars, List.append_eq, hpre, if_true, hdrop]

/-- Scanning walks unchanged through a block that never contains the
pattern's first character. -/
theorem replChars_skip_no_head (hd : Char) (tl : List Char) :
    ∀ (core : List Char) (fuel : Nat) (t : List Char), hd ∉ core →
      core.length ≤ fuel →
      replChars (hd :: tl) fuel (core ++ t) =
        core ++ replChars (hd :: tl) (fuel - core.length) t := by
  intro core
  induction core with
  | nil => intro fuel t _ _; simp
  | cons c cs ih =>
    intro fuel t hmem hlen
    obtain ⟨f, rfl⟩ : ∃ f, fuel = f + 1 :=
      ⟨fuel - 1, by simp only [List.length_cons] at hlen; omega⟩
    have hc : hd ≠ c := fun h => hmem (h ▸ List.mem_cons_self c cs)
    have hnp : (hd :: tl).isPrefixOf (c :: (cs ++ t)) = false := by
      simp [List.isPrefixOf, beq_eq_false_iff_ne.mpr hc]
    have hcs : hd ∉ cs := fun h => hmem (List.mem_cons_of_mem c h)
    have hlen' : cs.length ≤ f := by
      simp only [List.length_cons] at hlen; omega
    rw [List.cons_append]
    simp only [replChars, hnp, Bool.false_eq_true, if_false]
    rw [ih f t hcs hlen']
    have harith : f + 1 - (c :: cs).length = f - cs.length := by
      simp only [List.length_cons]; omega
    rw [harith]
    rfl

/-- The first `replace` removes the leading `docker-` and, when `-`
occurs nowhere later, nothing else. -/
theorem replAll_docker_front (x : List Char) (h : '-' ∉ x) :
    replAll dockerPat (dockerPat ++ x) = x := by
  rw [replAll]
  have hlen : (dockerPat ++ x).length = (x.length + 6) + 1 := by
    simp [dockerPat]
  rw [hlen]
  unfold dockerPat
  rw [replChars_head_match 'd' ['o', 'c', 'k', 'e', 'r', '-'] x (x.length + 6)]
  exact replChars_of_not_mem
    (by decide : '-' ∈ ['d', 'o', 'c', 'k', 'e', 'r', '-']) _ x h

/-- The second `replace` removes the trailing `.scope` and, when `.`
occurs nowhere in the interior, nothing else. -/
theorem replAll_scope_back (core : List Char) (h : '.' ∉ core) :
    replAll scopePat (core ++ scopePat) = core := by
  rw [replAll]
  have hlen : (core ++ scopePat).length = core.length + 6 := by
    simp [scopePat]
  rw [hlen]
  have hskip : replChars scopePat (core.length + 6) (core ++ scopePat) =
      core ++ replChars scopePat (core.length + 6 - core.length) scopePat :=
    replChars_skip_no_head '.' ['s', 'c', 'o', 'p', 'e'] core
      (core.length + 6) scopePat h (by omega)
  have harith : core.length + 6 - core.length = 6 := by omega
  rw [harith] at hskip
  rw [hskip]
  have h6 : replChars scopePat 6 scopePat = [] := by decide
  rw [h6, List.append_nil]

/-- Within one scan, detections are emitted exactly in the order of the
`HashSet` enumeration, restricted to pids not yet known (a prefix of it,
since an escaping spawn error can cut the scan short). -/
theorem detections_follow_enumeration (name : String) (envs : Nat → RemedEnv) :
    ∀ (ord : List Int) (known : Finset Int) (i : Nat), ord.Nodup →
      detectedPids (monitor_procs_scan name envs ord known i).events <+:
        ord.filter fun p => decide (p ∉ known) := by
  intro ord
  induction ord with
  | nil => intro known i _; simp [monitor_procs_scan, detectedPids]
  | cons p ps ih =>
    intro known i hnd
    have hnd' : ps.Nodup := (List.nodup_cons.mp hnd).2
    have hpps : p ∉ ps := (List.nodup_cons.mp hnd).1
    by_cases hp : p ∈ known
    · rw [scan_cons_mem hp]
      have hfil : List.filter (fun q => decide (q ∉ known)) (p :: ps) =
          List.filter (fun q => decide (q ∉ known)) ps := by
        simp [List.filter_cons, hp]
      rw [hfil]
      exact ih known i hnd'
    · have hfil : List.filter (fun q => decide (q ∉ known)) (p :: ps) =
          p :: List.filter (fun q => decide (q ∉ known)) ps := by
        simp [List.filter_cons, hp]
      rw [hfil]
      rcases handle_detection_cases name known p (envs i) with
        ⟨hterm, hknown⟩ | ⟨hterm, hknown⟩
      · rw [scan_cons_go hp hterm, hknown]
        have hsub := ih (insert p known) (i + 1) hnd'
        have hcong : List.filter (fun q => decide (q ∉ insert p known)) ps =
            List.filter (fun q => decide (q ∉ known)) ps := by
          apply List.filter_congr
          intro q hq
          have hqp : q ≠ p := fun h => hpps (h ▸ hq)
          simp [Finset.mem_insert, hqp]
        rw [hcong] at hsub
        obtain ⟨t, ht⟩ := hsub
        refine ⟨t, ?_⟩
        simp only [detectedPids_append, detectedPids_handle_detection]
        simp only [List.cons_append, List.append_assoc] at ht ⊢
        simp [ht]
      · rw [scan_cons_term hp hterm, detectedPids_handle_detection]
        exact ⟨List.filter (fun q => decide (q ∉ known)) ps, rfl⟩

/-- C8: the detection order within one iteration follows the `HashSet`
enumeration order, which Rust randomizes per set instance: for the same
snapshot content `"1\n2"` both `[1, 2]` and `[2, 1]` are legitimate
enumerations of the parsed set, and the two runs emit their detections
in the two different orders — detection order is not deterministic
across runs. -/
theorem detection_order_follows_hash_enumeration :
    IsEnumOf [1, 2] "1\n2" ∧ IsEnumOf [2, 1] "1\n2" ∧
    detectedPids (monitor_procs_step "docker-a.scope" ∅
      (Poll.ok [1, 2]
        (fun _ => ⟨CmdResult.exit true, CmdResult.exit true, 0, 0⟩))).events =
      [1, 2] ∧
    detectedPids (monitor_procs_step "docker-a.scope" ∅
      (Poll.ok [2, 1]
        (fun _ => ⟨CmdResult.exit true, CmdResult.exit true, 0, 0⟩))).events =
      [2, 1] :=
  ⟨by decide, by decide, by decide, by decide⟩

/-- C9 counterexample: the program's `replace`-based cleaning removes
*interior* occurrences too: on directory name `docker-a.scopeb.scope`
the code derives `ab`, while stripping only the leading `docker-` and
the trailing `.scope` (the spec's wording) yields `a.scopeb`. -/
theorem cleaned_removes_interior_occurrences :
    cleaned "docker-a.scopeb.scope" = "ab" ∧
    stripPrefixSuffix "docker-a.scopeb.scope" = "a.scopeb" :=
  ⟨by decide, by decide⟩

/-- C9 amended: the derived identifier is the directory name with every
occurrence of `docker-` and then every occurrence of `.scope` removed
(Rust `replace` with empty replacement); when the interior contains
neither `-` nor `.` — in particular for hexadecimal container ids —
this coincides with stripping the `docker-` prefix and `.scope`
suffix. -/
theorem cleaned_agrees_with_strip_on_clean_interiors (core : List Char)
    (h₁ : '-' ∉ core) (h₂ : '.' ∉ core) :
    cleanedList (dockerPat ++ core ++ scopePat) = core ∧
    stripPrefixSuffixList (dockerPat ++ core ++ scopePat) = core := by
  constructor
  · rw [cleanedList, List.append_assoc]
    rw [replAll_docker_front (core ++ scopePat) (by
      simp only [List.mem_append, not_or]
      exact ⟨h₁, by decide⟩)]
    exact replAll_scope_back core h₂
  · rw [List.append_assoc]
    have hpre : dockerPat.isPrefixOf (dockerPat ++ (core ++ scopePat)) = true :=
      List.isPrefixOf_iff_prefix.mpr (List.prefix_append _ _)
    have hsuf : scopePat.isSuffixOf (core ++ scopePat) = true :=
      List.isSuffixOf_iff_suffix.mpr (List.suffix_append _ _)
    rw [stripPrefixSuffixList]
    simp only [hpre, if_true, List.drop_left, hsuf]
    rw [List.length_append, Nat.add_sub_cancel]
    exact List.take_left _ _

/-- Witness for the amended C9 statement at the concrete interior
`abc`. -/
theorem cleaned_agrees_with_strip_witness :
    cleanedList (dockerPat ++ ['a', 'b', 'c'] ++ scopePat) = ['a', 'b', 'c'] ∧
    stripPrefixSuffixList (dockerPat ++ ['a', 'b', 'c'] ++ scopePat) =
      ['a', 'b', 'c'] :=
  cleaned_agrees_with_strip_on_clean_interiors ['a', 'b', 'c']
    (by decide) (by decide)

end Sentinel
